import Mathlib

/-!
Verification of the periodic fold-and-bin ("river plot") core described by this
repository's specification, together with two small computations that appear
directly in the notebooks (phase-sorted plotting via argsort, and the FFI
exposure midpoint).

The repository's notebooks invoke the fold / plot_river computation from an
external library; the computation itself is not part of the source tree.  The
definitions below for the fold-and-bin core are therefore modelled from the
specification's own formulas (phase, cycle index, bin assignment, aggregation,
error taxonomy), with exact rational arithmetic in place of floating point.
-/

/-- Modelled from the spec: a time-series sample `(timestamp, flux value)`.  The
`finite` flag records whether the flux value is finite and non-flagged (the
spec's "finite, non-flagged flux values"); NaN and infinite floating-point
fluxes of the source data have no counterpart in `ℚ`, so the flag carries that
information. -/
structure Sample where
  time : ℚ
  flux : ℚ
  finite : Bool
  deriving DecidableEq, Repr

/-- Modelled from the spec: real-valued floor-mod `x mod y = x - y * floor (x / y)`,
the modulus in the spec's phase formula. -/
def qmod (x y : ℚ) : ℚ := x - y * ⌊x / y⌋

/-- Modelled from the spec: phase of a sample at time `t`, namely
`((t - epoch) mod period) / period`. -/
def phase (period epoch t : ℚ) : ℚ := qmod (t - epoch) period / period

/-- Modelled from the spec: cycle index `floor ((t - epoch) / period)`, which
determines the output row a sample belongs to. -/
def cycleIndex (period epoch t : ℚ) : ℤ := ⌊(t - epoch) / period⌋

theorem phase_eq_fract (period epoch t : ℚ) (hp : period ≠ 0) :
    phase period epoch t = Int.fract ((t - epoch) / period) := by
  unfold phase qmod Int.fract
  rw [sub_div, mul_comm, mul_div_assoc, div_self hp, mul_one]

/-- Modelled from the spec: phase-bin index `floor (phase * bin_count)` clamped
to at most `bin_count - 1`, absorbing the edge case at phase 1. -/
def binIndex (binCount : ℕ) (ph : ℚ) : ℕ :=
  min (⌊ph * binCount⌋.toNat) (binCount - 1)

/-- Exposure midpoint computed by the FFI notebook from the header:
`mid_time = (TSTOP + TSTART) / 2`, in exact arithmetic. -/
def mid_time (tstart tstop : ℚ) : ℚ := (tstop + tstart) / 2

/-- Modelled from the spec: the flux values of the samples falling in the
(cycle `c`, phase-bin `b`) cell of the river matrix. -/
def cellFluxes (samples : List Sample) (period epoch : ℚ) (binCount : ℕ)
    (c : ℤ) (b : ℕ) : List ℚ :=
  (samples.filter (fun s =>
    cycleIndex period epoch s.time == c &&
      binIndex binCount (phase period epoch s.time) == b)).map Sample.flux

/-- Cycle indices of all samples, in input order. -/
def cycleIndices (samples : List Sample) (period epoch : ℚ) : List ℤ :=
  samples.map (fun s => cycleIndex period epoch s.time)

/-- Modelled from the spec: the first cycle containing data. -/
def minCycle (samples : List Sample) (period epoch : ℚ) : ℤ :=
  (cycleIndices samples period epoch).foldl min
    ((cycleIndices samples period epoch).headD 0)

/-- Modelled from the spec: the last cycle containing data. -/
def maxCycle (samples : List Sample) (period epoch : ℚ) : ℤ :=
  (cycleIndices samples period epoch).foldl max
    ((cycleIndices samples period epoch).headD 0)

/-- Number of rows of the river matrix: cycles `minCycle .. maxCycle` inclusive. -/
def numRows (samples : List Sample) (period epoch : ℚ) : ℕ :=
  (maxCycle samples period epoch - minCycle samples period epoch + 1).toNat

/-- Modelled from the spec: arithmetic mean of a list of values (0 for an empty
list; the pipeline only applies it to non-empty cells). -/
def mean (xs : List ℚ) : ℚ := xs.sum / xs.length

/-- Sorted copy of a list of flux values. -/
def sortedFluxes (xs : List ℚ) : List ℚ := xs.mergeSort (fun a b => decide (a ≤ b))

/-- Modelled from the spec: median of a list of values, the middle element of
the sorted list for odd length and the average of the two middle elements for
even length. -/
def median (xs : List ℚ) : ℚ :=
  if xs.length % 2 = 1 then (sortedFluxes xs).getD (xs.length / 2) 0
  else ((sortedFluxes xs).getD (xs.length / 2 - 1) 0 +
    (sortedFluxes xs).getD (xs.length / 2) 0) / 2

theorem sortedFluxes_perm (xs : List ℚ) : (sortedFluxes xs).Perm xs :=
  List.mergeSort_perm xs _

theorem sortedFluxes_sorted (xs : List ℚ) : (sortedFluxes xs).Sorted (· ≤ ·) := by
  have h := @List.sorted_mergeSort ℚ (fun a b : ℚ => decide (a ≤ b))
    (fun a b c hab hbc => by
      simp only [decide_eq_true_eq] at *
      exact le_trans hab hbc)
    (fun a b => by simpa [Bool.or_eq_true, decide_eq_true_eq] using le_total a b)
    xs
  exact h.imp (fun hab => by simpa [decide_eq_true_eq] using hab)

/-- One-sample input used by witnesses. -/
def demoOne : List Sample := [⟨0, 5, true⟩]

/-- C1: with period > 0, the fold assigns each sample at time `t` the phase
`((t - epoch) mod period) / period`, which lies in `[0, 1)`, and the cycle index
`floor ((t - epoch) / period)`; together they decompose `t - epoch` as
`period * cycle + period * phase`. -/
theorem fold_phase_cycle (period epoch t : ℚ) (hp : 0 < period) :
    0 ≤ phase period epoch t ∧ phase period epoch t < 1 ∧
      t - epoch = period * cycleIndex period epoch t + period * phase period epoch t := by
  have hne : period ≠ 0 := ne_of_gt hp
  have hf := phase_eq_fract period epoch t hne
  refine ⟨?_, ?_, ?_⟩
  · rw [hf]; exact Int.fract_nonneg _
  · rw [hf]; exact Int.fract_lt_one _
  · rw [hf, Int.fract]
    unfold cycleIndex
    field_simp

/-- Witness for C1 at period 10, epoch 0, t = 24. -/
theorem fold_phase_cycle_witness :
    (0 : ℚ) < 10 ∧
      (0 ≤ phase 10 0 24 ∧ phase 10 0 24 < 1 ∧
        (24 : ℚ) - 0 = 10 * cycleIndex 10 0 24 + 10 * phase 10 0 24) :=
  ⟨by norm_num, fold_phase_cycle 10 0 24 (by norm_num)⟩

/-- C5: the phase-bin index is `floor (phase * bin_count)` clamped to at most
`bin_count - 1`; a phase of exactly 1 lands in the last bin, and the bin index
is always in range. -/
theorem binIndex_safe (binCount : ℕ) (ph : ℚ) (hn : 0 < binCount) :
    binIndex binCount ph = min (⌊ph * binCount⌋.toNat) (binCount - 1) ∧
      binIndex binCount 1 = binCount - 1 ∧
      binIndex binCount ph < binCount := by
  refine ⟨rfl, ?_, ?_⟩
  · unfold binIndex
    have h1 : ((1 : ℚ) * binCount) = (binCount : ℚ) := by ring
    rw [h1]
    simp [min_eq_right, Nat.sub_le]
  · exact Nat.lt_of_le_of_lt (min_le_right _ _) (Nat.sub_lt hn one_pos)

/-- Witness for C5 at bin_count 10, phase 1. -/
theorem binIndex_safe_witness :
    0 < 10 ∧
      (binIndex 10 1 = min (⌊(1 : ℚ) * 10⌋.toNat) (10 - 1) ∧
        binIndex 10 1 = 10 - 1 ∧ binIndex 10 1 < 10) :=
  ⟨by decide, binIndex_safe 10 1 (by decide)⟩

/-- C10: when TSTART ≤ TSTOP, the exposure midpoint `(TSTOP + TSTART) / 2`
computed in exact arithmetic lies between TSTART and TSTOP. -/
theorem mid_time_between (tstart tstop : ℚ) (h : tstart ≤ tstop) :
    tstart ≤ mid_time tstart tstop ∧ mid_time tstart tstop ≤ tstop := by
  unfold mid_time
  constructor <;> linarith

/-- Witness for C10 at TSTART = 2457733, TSTOP = 2457763. -/
theorem mid_time_between_witness :
    (2457733 : ℚ) ≤ 2457763 ∧
      ((2457733 : ℚ) ≤ mid_time 2457733 2457763 ∧ mid_time 2457733 2457763 ≤ 2457763) :=
  ⟨by norm_num, mid_time_between 2457733 2457763 (by norm_num)⟩

/-- C7: a cell containing exactly one sample has mean aggregation equal to that
sample's flux; a cell containing an odd number of samples has median
aggregation equal to the middle element of the sorted list of its contributing
fluxes, which is a sorted permutation of the cell's fluxes. -/
theorem cell_mean_median :
    (∀ (samples : List Sample) (period epoch : ℚ) (binCount : ℕ) (c : ℤ) (b : ℕ) (x : ℚ),
        cellFluxes samples period epoch binCount c b = [x] →
          mean (cellFluxes samples period epoch binCount c b) = x) ∧
      (∀ (samples : List Sample) (period epoch : ℚ) (binCount : ℕ) (c : ℤ) (b : ℕ),
        (cellFluxes samples period epoch binCount c b).length % 2 = 1 →
          median (cellFluxes samples period epoch binCount c b) =
              (sortedFluxes (cellFluxes samples period epoch binCount c b)).getD
                ((cellFluxes samples period epoch binCount c b).length / 2) 0 ∧
            (sortedFluxes (cellFluxes samples period epoch binCount c b)).Perm
              (cellFluxes samples period epoch binCount c b) ∧
            (sortedFluxes (cellFluxes samples period epoch binCount c b)).Sorted (· ≤ ·)) := by
  constructor
  · intro samples period epoch binCount c b x h
    rw [h]
    simp [mean]
  · intro samples period epoch binCount c b h
    refine ⟨?_, sortedFluxes_perm _, sortedFluxes_sorted _⟩
    unfold median
    rw [if_pos h]

/-- Witness for C7 on a one-sample input (a one-element cell is also an
odd-length cell). -/
theorem cell_mean_median_witness :
    cellFluxes demoOne 10 0 10 0 0 = [5] ∧
      mean (cellFluxes demoOne 10 0 10 0 0) = 5 ∧
      (cellFluxes demoOne 10 0 10 0 0).length % 2 = 1 ∧
      (median (cellFluxes demoOne 10 0 10 0 0) =
          (sortedFluxes (cellFluxes demoOne 10 0 10 0 0)).getD
            ((cellFluxes demoOne 10 0 10 0 0).length / 2) 0 ∧
        (sortedFluxes (cellFluxes demoOne 10 0 10 0 0)).Perm
          (cellFluxes demoOne 10 0 10 0 0) ∧
        (sortedFluxes (cellFluxes demoOne 10 0 10 0 0)).Sorted (· ≤ ·)) :=
  have h1 : cellFluxes demoOne 10 0 10 0 0 = [5] := by
    norm_num [demoOne, cellFluxes, cycleIndex, binIndex, phase, qmod]
  ⟨h1, cell_mean_median.1 demoOne 10 0 10 0 0 5 h1,
    by rw [h1]; decide, cell_mean_median.2 demoOne 10 0 10 0 0 (by rw [h1]; decide)⟩

/-- Index list of `np.argsort(keys)` as used by the DVT notebook: a permutation
of `0 .. keys.length - 1` that sorts `keys`, modelled as a comparison sort of
the index list by key value. -/
def argsort (keys : List ℚ) : List ℕ :=
  (List.range keys.length).mergeSort (fun i j => decide (keys.getD i 0 ≤ keys.getD j 0))

/-- Pair sequence plotted by the DVT notebook: `phases` and `fluxes` indexed by
`np.argsort(phases)`. -/
def sortedPairs (phases fluxes : List ℚ) : List (ℚ × ℚ) :=
  (argsort phases).map (fun i => (phases.getD i 0, fluxes.getD i 0))

theorem argsort_sorted_key (keys : List ℚ) :
    (argsort keys).Pairwise (fun i j => keys.getD i 0 ≤ keys.getD j 0) := by
  have h := @List.sorted_mergeSort ℕ
    (fun i j : ℕ => decide (keys.getD i 0 ≤ keys.getD j 0))
    (fun a b c hab hbc => by
      simp only [decide_eq_true_eq] at *
      exact le_trans hab hbc)
    (fun a b => by
      simpa [Bool.or_eq_true, decide_eq_true_eq] using
        le_total (keys.getD a 0) (keys.getD b 0))
    (List.range keys.length)
  exact h.imp (fun hab => by simpa [decide_eq_true_eq] using hab)

theorem argsort_perm_range (keys : List ℚ) :
    (argsort keys).Perm (List.range keys.length) :=
  List.mergeSort_perm _ _

theorem range_map_getD_zip (as : List ℚ) : ∀ bs : List ℚ, as.length = bs.length →
    (List.range as.length).map (fun i => (as.getD i 0, bs.getD i 0)) = as.zip bs := by
  induction as with
  | nil => intro bs h; simp
  | cons a as ih =>
    intro bs h
    cases bs with
    | nil => simp at h
    | cons b bs =>
      simp only [List.length_cons, List.range_succ_eq_map, List.map_cons, List.map_map,
        List.getD_cons_zero, List.zip_cons_cons]
      congr 1
      rw [← ih bs (by simpa using h)]
      simp [Function.comp]

/-- C9: indexing the phase and flux arrays by `np.argsort(phases)` yields a
sequence of (phase, flux) pairs that is a permutation of the original pairs and
whose phase components are in non-decreasing order. -/
theorem argsort_plot (phases fluxes : List ℚ) (h : phases.length = fluxes.length) :
    (sortedPairs phases fluxes).Perm (phases.zip fluxes) ∧
      ((sortedPairs phases fluxes).map Prod.fst).Sorted (· ≤ ·) := by
  constructor
  · have hp : (sortedPairs phases fluxes).Perm
        ((List.range phases.length).map (fun i => (phases.getD i 0, fluxes.getD i 0))) :=
      (argsort_perm_range phases).map _
    rw [range_map_getD_zip phases fluxes h] at hp
    exact hp
  · show ((sortedPairs phases fluxes).map Prod.fst).Pairwise (· ≤ ·)
    unfold sortedPairs
    rw [List.map_map]
    rw [List.pairwise_map]
    exact (argsort_sorted_key phases).imp (fun hab => by simpa using hab)

/-- Phase values used by the C9 witness. -/
def demoPhases : List ℚ := [3, 1, 2]

/-- Flux values used by the C9 witness. -/
def demoFluxes : List ℚ := [30, 10, 20]

/-- Witness for C9 on three unsorted phases. -/
theorem argsort_plot_witness :
    demoPhases.length = demoFluxes.length ∧
      ((sortedPairs demoPhases demoFluxes).Perm (demoPhases.zip demoFluxes) ∧
        ((sortedPairs demoPhases demoFluxes).map Prod.fst).Sorted (· ≤ ·)) :=
  ⟨by decide, argsort_plot demoPhases demoFluxes (by decide)⟩

/-- Modelled from the spec: error taxonomy of the fold-and-bin computation. -/
inductive RiverError where
  | emptyInput
  | invalidParameter
  | insufficientData
  deriving DecidableEq, Repr

/-- Modelled from the spec: the enumerated aggregation choices; any other
value is rejected as an invalid parameter. -/
def validAggregation (method : String) : Bool :=
  method == "mean" || method == "median" || method == "sigma"

/-- Modelled from the spec: eager error detection before matrix construction,
in the order the spec lists the error conditions: empty input first, then
malformed parameters (non-positive period or unknown aggregation), then
all-non-finite fluxes. -/
def checkRiver (samples : List Sample) (period : ℚ) (method : String) :
    Option RiverError :=
  if samples.isEmpty then some .emptyInput
  else if decide (period ≤ 0) || !validAggregation method then some .invalidParameter
  else if samples.all (fun s => !s.finite) then some .insufficientData
  else none

/-- Modelled from the spec: all finite, non-flagged flux values of the input. -/
def finiteFluxes (samples : List Sample) : List ℚ :=
  (samples.filter (fun s => s.finite)).map Sample.flux

/-- Modelled from the spec: global mean over all finite, non-flagged fluxes,
computed once for the whole input. -/
def globalMean (samples : List Sample) : ℚ := mean (finiteFluxes samples)

/-- Modelled from the spec: global population variance over all finite,
non-flagged fluxes. -/
def globalVariance (samples : List Sample) : ℚ :=
  mean ((finiteFluxes samples).map (fun x => (x - globalMean samples) ^ 2))

/-- Modelled from the spec: global standard deviation, the square root of the
global variance. -/
noncomputable def globalStd (samples : List Sample) : ℝ :=
  Real.sqrt (globalVariance samples)

/-- Modelled from the spec: the aggregated value of one cell: arithmetic mean,
median, or the sigma significance score
`(cell mean - global mean) / global standard deviation`. -/
noncomputable def aggValue (method : String) (samples : List Sample)
    (cell : List ℚ) : ℝ :=
  if method == "mean" then (mean cell : ℝ)
  else if method == "median" then (median cell : ℝ)
  else ((mean cell : ℝ) - (globalMean samples : ℝ)) / globalStd samples

/-- Modelled from the spec: the river matrix; rows are the cycles `minCycle ..
maxCycle` in ascending order, columns are the `binCount` phase bins in
ascending order, and a cell with no contributing samples is missing (`none`). -/
noncomputable def riverMatrix (samples : List Sample) (period epoch : ℚ)
    (binCount : ℕ) (method : String) : List (List (Option ℝ)) :=
  (List.range (numRows samples period epoch)).map (fun r : ℕ =>
    (List.range binCount).map (fun b : ℕ =>
      if (cellFluxes samples period epoch binCount
            (minCycle samples period epoch + (r : ℤ)) b).isEmpty then none
      else some (aggValue method samples
        (cellFluxes samples period epoch binCount
          (minCycle samples period epoch + (r : ℤ)) b))))

/-- Modelled from the spec: the phase-bin edges, part of the axis metadata
returned with the matrix. -/
def binEdges (binCount : ℕ) : List ℚ :=
  (List.range (binCount + 1)).map (fun b => (b : ℚ) / binCount)

/-- Modelled from the spec: the matrix plus the axis metadata (phase-bin edges
and cycle index range) needed for rendering. -/
structure RiverOutput where
  matrix : List (List (Option ℝ))
  edges : List ℚ
  firstCycle : ℤ
  lastCycle : ℤ

/-- Modelled from the spec: the full fold-and-bin computation: eager error
checks, then the river matrix with its axis metadata.  `binPoints` is accepted
as an input; per the spec's stated contract the reduction happens per
(cycle, phase-bin) cell, with `bin_count` given explicitly (the spec leaves the
derivation of `bin_count` from the cadence and `bin_points` as an open
question, so it is not modelled). -/
noncomputable def riverRun (samples : List Sample) (period epoch : ℚ)
    (binPoints : ℕ) (method : String) (binCount : ℕ) :
    Except RiverError RiverOutput :=
  match checkRiver samples period method with
  | some e => .error e
  | none => .ok ⟨riverMatrix samples period epoch binCount method,
      binEdges binCount, minCycle samples period epoch,
      maxCycle samples period epoch⟩

theorem checkRiver_eq (samples : List Sample) (period : ℚ) (method : String) :
    checkRiver samples period method =
      if samples = [] then some RiverError.emptyInput
      else if period ≤ 0 ∨ validAggregation method = false then
        some RiverError.invalidParameter
      else if ∀ s ∈ samples, s.finite = false then some RiverError.insufficientData
      else none := by
  by_cases h1 : samples = []
  · simp [checkRiver, h1]
  · by_cases h2 : period ≤ 0 ∨ validAggregation method = false
    · have hb : (decide (period ≤ 0) || !validAggregation method) = true := by
        rcases h2 with h | h
        · simp [h]
        · simp [h]
      simp [checkRiver, h1, h2, hb]
    · have hb : (decide (period ≤ 0) || !validAggregation method) = false := by
        push_neg at h2
        simp [h2.1, h2.2]
      by_cases h3 : ∀ s ∈ samples, s.finite = false
      · have ha : samples.all (fun s => !s.finite) = true := by
          simp [List.all_eq_true, Bool.not_eq_true']
          exact h3
        rw [if_neg h1, if_neg h2, if_pos h3]
        simp [checkRiver, h1, hb, ha]
      · have ha : samples.all (fun s => !s.finite) = false := by
          rw [Bool.eq_false_iff]
          simpa [List.all_eq_true, Bool.not_eq_true'] using h3
        simp [checkRiver, h1, h2, h3, hb, ha]

/-- Counterexample to C4 as stated: on the empty input with period -1 the
computation reports the empty-input error, not the invalid-parameter error,
even though period ≤ 0, because the error conditions overlap and are checked
in the order the spec lists them. -/
theorem checkRiver_overlap_counterexample :
    checkRiver [] (-1) "mean" = some RiverError.emptyInput ∧
      (-1 : ℚ) ≤ 0 ∧
      checkRiver [] (-1) "mean" ≠ some RiverError.invalidParameter :=
  ⟨rfl, by norm_num, by simp [checkRiver]⟩

/-- C4 (amended): the computation fails with the empty-input error exactly on
the empty input; with the invalid-parameter error exactly when the input is
non-empty and period ≤ 0 or the aggregation is unknown; with the
insufficient-data error exactly when the input is non-empty, the parameters are
valid and every flux is non-finite; and succeeds on every other input.  The
run returns an error exactly when the eager check reports it. -/
theorem riverRun_errors (samples : List Sample) (period epoch : ℚ)
    (binPoints : ℕ) (method : String) (binCount : ℕ) :
    (checkRiver samples period method = some RiverError.emptyInput ↔ samples = [])
    ∧ (checkRiver samples period method = some RiverError.invalidParameter ↔
        samples ≠ [] ∧ (period ≤ 0 ∨ validAggregation method = false))
    ∧ (checkRiver samples period method = some RiverError.insufficientData ↔
        samples ≠ [] ∧ 0 < period ∧ validAggregation method = true ∧
          ∀ s ∈ samples, s.finite = false)
    ∧ (checkRiver samples period method = none ↔
        samples ≠ [] ∧ 0 < period ∧ validAggregation method = true ∧
          ¬∀ s ∈ samples, s.finite = false)
    ∧ (∀ e, riverRun samples period epoch binPoints method binCount =
        Except.error e ↔ checkRiver samples period method = some e)
    ∧ ((∃ out, riverRun samples period epoch binPoints method binCount =
        Except.ok out) ↔ checkRiver samples period method = none) := by
  have hc := checkRiver_eq samples period method
  have hrun : ∀ e, riverRun samples period epoch binPoints method binCount =
      Except.error e ↔ checkRiver samples period method = some e := by
    intro e
    unfold riverRun
    cases hck : checkRiver samples period method with
    | some e2 => simp [hck]
    | none => simp [hck]
  have hok : (∃ out, riverRun samples period epoch binPoints method binCount =
      Except.ok out) ↔ checkRiver samples period method = none := by
    unfold riverRun
    cases hck : checkRiver samples period method with
    | some e2 => simp [hck]
    | none => simp [hck]
  refine ⟨?_, ?_, ?_, ?_, hrun, hok⟩ <;> rw [hc] <;> split_ifs with h1 h2 h3 <;>
    simp_all [not_or, not_le, Bool.not_eq_false]
  all_goals rcases h2 with h2a | h2a
  all_goals intro hp hv
  all_goals first
    | exact absurd h2a (not_le.mpr hp)
    | exact absurd hv (by simp [h2a])

/-- C8: the fold-and-bin computation is a pure function of its inputs: two
invocations with identical samples, period, epoch, bin_points, aggregation and
bin_count produce identical results (river matrix and axis metadata).  The
model is stateless and returns a fresh value, so no invocation mutates the
input sample sequence. -/
theorem riverRun_deterministic (s1 s2 : List Sample) (p1 p2 e1 e2 : ℚ)
    (bp1 bp2 : ℕ) (m1 m2 : String) (n1 n2 : ℕ)
    (hs : s1 = s2) (hp : p1 = p2) (he : e1 = e2) (hbp : bp1 = bp2)
    (hm : m1 = m2) (hn : n1 = n2) :
    riverRun s1 p1 e1 bp1 m1 n1 = riverRun s2 p2 e2 bp2 m2 n2 := by
  rw [hs, hp, he, hbp, hm, hn]

/-- Witness for C8 on a concrete invocation. -/
theorem riverRun_deterministic_witness :
    demoOne = demoOne ∧ (10 : ℚ) = 10 ∧ (0 : ℚ) = 0 ∧ 1 = 1 ∧
      ("mean" = "mean") ∧ 10 = 10 ∧
      riverRun demoOne 10 0 1 "mean" 10 = riverRun demoOne 10 0 1 "mean" 10 :=
  ⟨rfl, rfl, rfl, rfl, rfl, rfl,
    riverRun_deterministic demoOne demoOne 10 10 0 0 1 1 "mean" "mean" 10 10
      rfl rfl rfl rfl rfl rfl⟩

theorem foldl_min_le (l : List ℤ) : ∀ a : ℤ, l.foldl min a ≤ a := by
  induction l with
  | nil => intro a; exact le_refl a
  | cons x xs ih => intro a; exact le_trans (ih (min a x)) (min_le_left a x)

theorem foldl_min_le_mem (l : List ℤ) : ∀ a x : ℤ, x ∈ l → l.foldl min a ≤ x := by
  induction l with
  | nil => intro a x hx; cases hx
  | cons y ys ih =>
    intro a x hx
    rcases List.mem_cons.mp hx with h | h
    · subst h
      exact le_trans (foldl_min_le ys (min a x)) (min_le_right a x)
    · exact ih (min a y) x h

theorem foldl_min_mem (l : List ℤ) : ∀ a : ℤ, l.foldl min a = a ∨ l.foldl min a ∈ l := by
  induction l with
  | nil => intro a; exact Or.inl rfl
  | cons y ys ih =>
    intro a
    simp only [List.foldl_cons]
    rcases ih (min a y) with h | h
    · rcases min_choice a y with hm | hm
      · left; rw [h, hm]
      · right; rw [h, hm]; exact List.mem_cons_self y ys
    · right; exact List.mem_cons_of_mem y h

theorem le_foldl_max (l : List ℤ) : ∀ a : ℤ, a ≤ l.foldl max a := by
  induction l with
  | nil => intro a; exact le_refl a
  | cons x xs ih => intro a; exact le_trans (le_max_left a x) (ih (max a x))

theorem mem_le_foldl_max (l : List ℤ) : ∀ a x : ℤ, x ∈ l → x ≤ l.foldl max a := by
  induction l with
  | nil => intro a x hx; cases hx
  | cons y ys ih =>
    intro a x hx
    rcases List.mem_cons.mp hx with h | h
    · subst h
      exact le_trans (le_max_right a x) (le_foldl_max ys (max a x))
    · exact ih (max a y) x h

theorem foldl_max_mem (l : List ℤ) : ∀ a : ℤ, l.foldl max a = a ∨ l.foldl max a ∈ l := by
  induction l with
  | nil => intro a; exact Or.inl rfl
  | cons y ys ih =>
    intro a
    simp only [List.foldl_cons]
    rcases ih (max a y) with h | h
    · rcases max_choice a y with hm | hm
      · left; rw [h, hm]
      · right; rw [h, hm]; exact List.mem_cons_self y ys
    · right; exact List.mem_cons_of_mem y h

theorem cycleIndices_ne_nil (samples : List Sample) (p e : ℚ) (hs : samples ≠ []) :
    cycleIndices samples p e ≠ [] := by
  unfold cycleIndices
  simpa using hs

theorem headD_mem {l : List ℤ} (hl : l ≠ []) : l.headD 0 ∈ l := by
  cases l with
  | nil => exact absurd rfl hl
  | cons x xs => exact List.mem_cons_self x xs

theorem minCycle_le (samples : List Sample) (p e : ℚ) (s : Sample) (hs : s ∈ samples) :
    minCycle samples p e ≤ cycleIndex p e s.time := by
  unfold minCycle
  apply foldl_min_le_mem
  unfold cycleIndices
  exact List.mem_map_of_mem _ hs

theorem le_maxCycle (samples : List Sample) (p e : ℚ) (s : Sample) (hs : s ∈ samples) :
    cycleIndex p e s.time ≤ maxCycle samples p e := by
  unfold maxCycle
  apply mem_le_foldl_max
  unfold cycleIndices
  exact List.mem_map_of_mem _ hs

theorem minCycle_attained (samples : List Sample) (p e : ℚ) (hs : samples ≠ []) :
    ∃ s ∈ samples, cycleIndex p e s.time = minCycle samples p e := by
  have hne := cycleIndices_ne_nil samples p e hs
  have hmem : minCycle samples p e ∈ cycleIndices samples p e := by
    unfold minCycle
    rcases foldl_min_mem (cycleIndices samples p e)
        ((cycleIndices samples p e).headD 0) with h | h
    · rw [h]; exact headD_mem hne
    · exact h
  unfold cycleIndices at hmem
  rcases List.mem_map.mp hmem with ⟨s, hs1, hs2⟩
  exact ⟨s, hs1, hs2⟩

theorem maxCycle_attained (samples : List Sample) (p e : ℚ) (hs : samples ≠ []) :
    ∃ s ∈ samples, cycleIndex p e s.time = maxCycle samples p e := by
  have hne := cycleIndices_ne_nil samples p e hs
  have hmem : maxCycle samples p e ∈ cycleIndices samples p e := by
    unfold maxCycle
    rcases foldl_max_mem (cycleIndices samples p e)
        ((cycleIndices samples p e).headD 0) with h | h
    · rw [h]; exact headD_mem hne
    · exact h
  unfold cycleIndices at hmem
  rcases List.mem_map.mp hmem with ⟨s, hs1, hs2⟩
  exact ⟨s, hs1, hs2⟩

theorem length_filter_eq_sum {α : Type} (L : List α) (q : α → Bool) :
    (L.filter q).length = (L.map (fun a => if q a then 1 else 0)).sum := by
  induction L with
  | nil => rfl
  | cons x xs ih =>
    by_cases h : q x = true <;> simp [List.filter_cons, h, ih] <;> omega

theorem sum_map_add_nat {α : Type} (L : List α) (f g : α → ℕ) :
    (L.map (fun a => f a + g a)).sum = (L.map f).sum + (L.map g).sum := by
  induction L with
  | nil => rfl
  | cons x xs ih =>
    simp only [List.map_cons, List.sum_cons, ih]
    omega

theorem sum_map_one_nat {α : Type} (L : List α) : (L.map (fun _ => 1)).sum = L.length := by
  induction L with
  | nil => rfl
  | cons x xs ih =>
    simp only [List.map_cons, List.sum_cons, ih, List.length_cons]
    omega

theorem sum_filter_swap {α ι : Type} (L : List α) (I : List ι) (p : ι → α → Bool) :
    (I.map (fun i => (L.filter (fun a => p i a)).length)).sum =
      (L.map (fun a => (I.filter (fun i => p i a)).length)).sum := by
  induction I with
  | nil =>
    simp only [List.map_nil, List.sum_nil, List.filter_nil, List.length_nil]
    induction L with
    | nil => rfl
    | cons x xs ihL => simpa using ihL
  | cons i I ih =>
    simp only [List.map_cons, List.sum_cons]
    rw [ih, length_filter_eq_sum L (fun a => p i a), ← sum_map_add_nat]
    congr 1
    apply List.map_congr_left
    intro a _
    by_cases h : p i a = true <;> simp [List.filter_cons, h] <;> omega

theorem length_filter_eq_one {ι : Type} (p : ι → Bool) (tgt : ι)
    (hp : ∀ i, p i = true ↔ i = tgt) :
    ∀ I : List ι, I.Nodup → tgt ∈ I → (I.filter p).length = 1 := by
  intro I
  induction I with
  | nil => intro _ h; cases h
  | cons y ys ih =>
    intro hnd hmem
    rcases List.nodup_cons.mp hnd with ⟨hy, hys⟩
    rcases List.mem_cons.mp hmem with h | h
    · have hpy : p y = true := (hp y).mpr h.symm
      have hnil : ys.filter p = [] := by
        rw [List.filter_eq_nil_iff]
        intro a ha hpa
        have ha2 : a = tgt := (hp a).mp hpa
        rw [ha2, h] at ha
        exact hy ha
      simp [List.filter_cons, hpy, hnil]
    · have hpy : ¬p y = true := by
        intro hpy
        have : y = tgt := (hp y).mp hpy
        rw [this] at hy
        exact hy h
      rw [List.filter_cons, if_neg hpy]
      exact ih hys h

/-- Cell coordinates of the river matrix grid: the cycles `minCycle .. maxCycle`
paired with the phase bins `0 .. binCount - 1`. -/
def gridPairs (samples : List Sample) (period epoch : ℚ) (binCount : ℕ) :
    List (ℤ × ℕ) :=
  ((List.range (numRows samples period epoch)).product (List.range binCount)).map
    (fun rb => (minCycle samples period epoch + rb.1, rb.2))

/-- Total number of samples counted over all cells of the river matrix grid. -/
def totalCellCount (samples : List Sample) (period epoch : ℚ) (binCount : ℕ) : ℕ :=
  ((gridPairs samples period epoch binCount).map
    (fun cb => (cellFluxes samples period epoch binCount cb.1 cb.2).length)).sum

theorem gridPairs_nodup (samples : List Sample) (p e : ℚ) (n : ℕ) :
    (gridPairs samples p e n).Nodup := by
  apply List.Nodup.map
  · intro rb1 rb2 hEq
    rcases rb1 with ⟨r1, b1⟩
    rcases rb2 with ⟨r2, b2⟩
    simp only [Prod.mk.injEq] at hEq ⊢
    obtain ⟨h1, h2⟩ := hEq
    exact ⟨by omega, h2⟩
  · exact (List.nodup_range _).product (List.nodup_range _)

theorem mem_gridPairs (samples : List Sample) (p e : ℚ) (n : ℕ) (c : ℤ) (b : ℕ) :
    (c, b) ∈ gridPairs samples p e n ↔
      minCycle samples p e ≤ c ∧ c ≤ maxCycle samples p e ∧ b < n := by
  unfold gridPairs
  constructor
  · intro h
    rcases List.mem_map.mp h with ⟨⟨r, b2⟩, hmem, hEq⟩
    rcases List.pair_mem_product.mp hmem with ⟨hr, hb⟩
    rw [List.mem_range] at hr hb
    unfold numRows at hr
    simp only [Prod.mk.injEq] at hEq
    obtain ⟨h1, h2⟩ := hEq
    refine ⟨by omega, by omega, by omega⟩
  · rintro ⟨h1, h2, h3⟩
    apply List.mem_map.mpr
    refine ⟨((c - minCycle samples p e).toNat, b), ?_, ?_⟩
    · apply List.pair_mem_product.mpr
      refine ⟨List.mem_range.mpr ?_, List.mem_range.mpr h3⟩
      unfold numRows
      omega
    · simp only [Prod.mk.injEq]
      exact ⟨by omega, trivial⟩

/-- Number of cells of the river matrix grid whose (cycle, phase-bin)
coordinates match sample `s`. -/
def cellsContaining (samples : List Sample) (period epoch : ℚ) (binCount : ℕ)
    (s : Sample) : ℕ :=
  ((gridPairs samples period epoch binCount).filter (fun cb =>
    cycleIndex period epoch s.time == cb.1 &&
      binIndex binCount (phase period epoch s.time) == cb.2)).length

theorem cellsContaining_eq_one (samples : List Sample) (p e : ℚ) (n : ℕ)
    (hn : 0 < n) (s : Sample) (hsmem : s ∈ samples) :
    cellsContaining samples p e n s = 1 := by
  unfold cellsContaining
  apply length_filter_eq_one _
    (cycleIndex p e s.time, binIndex n (phase p e s.time))
  · intro cb
    rcases cb with ⟨c, b⟩
    constructor
    · intro hcb
      simp only [Bool.and_eq_true, beq_iff_eq] at hcb
      simp only [Prod.mk.injEq]
      exact ⟨hcb.1.symm, hcb.2.symm⟩
    · intro hcb
      rw [hcb]
      simp
  · exact gridPairs_nodup samples p e n
  · rw [mem_gridPairs]
    exact ⟨minCycle_le samples p e s hsmem, le_maxCycle samples p e s hsmem,
      (binIndex_safe n (phase p e s.time) hn).2.2⟩

theorem coversOnce (samples : List Sample) (p e : ℚ) (n : ℕ)
    (hn : 0 < n) :
    totalCellCount samples p e n = samples.length := by
  unfold totalCellCount
  have h1 : ((gridPairs samples p e n).map
      (fun cb => (cellFluxes samples p e n cb.1 cb.2).length)).sum =
      ((gridPairs samples p e n).map
      (fun cb => (samples.filter (fun s =>
        cycleIndex p e s.time == cb.1 &&
          binIndex n (phase p e s.time) == cb.2)).length)).sum := by
    apply congrArg
    apply List.map_congr_left
    intro cb _
    unfold cellFluxes
    exact List.length_map _ _
  rw [h1]
  rw [sum_filter_swap samples (gridPairs samples p e n)
    (fun cb s => cycleIndex p e s.time == cb.1 && binIndex n (phase p e s.time) == cb.2)]
  have h2 : (samples.map (fun s => ((gridPairs samples p e n).filter
      (fun cb => cycleIndex p e s.time == cb.1 &&
        binIndex n (phase p e s.time) == cb.2)).length)).sum =
      (samples.map (fun _ => 1)).sum := by
    apply congrArg
    apply List.map_congr_left
    intro s hsmem
    exact cellsContaining_eq_one samples p e n hn s hsmem
  rw [h2, sum_map_one_nat]

theorem binIndex_eq_iff (n : ℕ) (hn : 0 < n) (ph : ℚ) (h0 : 0 ≤ ph) (h1 : ph < 1)
    (b : ℕ) :
    binIndex n ph = b ↔ (b : ℚ) / n ≤ ph ∧ ph < ((b : ℚ) + 1) / n := by
  have hnQ : (0 : ℚ) < n := by exact_mod_cast hn
  have hk0 : 0 ≤ ⌊ph * n⌋ := Int.floor_nonneg.mpr (by positivity)
  have hkn : ⌊ph * n⌋ < (n : ℤ) := by
    apply Int.floor_lt.mpr
    push_cast
    calc ph * n < 1 * n := mul_lt_mul_of_pos_right h1 hnQ
    _ = n := one_mul _
  have hclamp : binIndex n ph = ⌊ph * n⌋.toNat := by
    unfold binIndex
    apply min_eq_left
    omega
  rw [hclamp]
  constructor
  · intro hb
    have hkb : ⌊ph * n⌋ = (b : ℤ) := by omega
    rcases Int.floor_eq_iff.mp hkb with ⟨hl, hr⟩
    push_cast at hl hr
    constructor
    · rw [div_le_iff₀ hnQ]
      exact hl
    · rw [lt_div_iff₀ hnQ]
      exact hr
  · rintro ⟨hl, hr⟩
    have hl2 : (b : ℚ) ≤ ph * n := (div_le_iff₀ hnQ).mp hl
    have hr2 : ph * n < (b : ℚ) + 1 := (lt_div_iff₀ hnQ).mp hr
    have hkb : ⌊ph * n⌋ = (b : ℤ) := by
      apply Int.floor_eq_iff.mpr
      constructor
      · exact_mod_cast hl2
      · push_cast
        exact hr2
    omega

theorem riverMatrix_length (samples : List Sample) (p e : ℚ) (n : ℕ)
    (method : String) :
    (riverMatrix samples p e n method).length = numRows samples p e := by
  unfold riverMatrix
  rw [List.length_map, List.length_range]

theorem riverMatrix_row (samples : List Sample) (p e : ℚ) (n : ℕ)
    (method : String) (r : ℕ) (hr : r < numRows samples p e) :
    (riverMatrix samples p e n method).getD r [] =
      (List.range n).map (fun b =>
        if (cellFluxes samples p e n (minCycle samples p e + r) b).isEmpty then none
        else some (aggValue method samples
          (cellFluxes samples p e n (minCycle samples p e + r) b))) := by
  unfold riverMatrix
  rw [List.getD_eq_getElem?_getD, List.getElem?_map, List.getElem?_range hr]
  rfl

theorem cellFluxes_empty_of_no_cycle (samples : List Sample) (p e : ℚ) (n : ℕ)
    (c : ℤ) (b : ℕ) (hcyc : ∀ s ∈ samples, cycleIndex p e s.time ≠ c) :
    cellFluxes samples p e n c b = [] := by
  unfold cellFluxes
  have h : samples.filter (fun s =>
      cycleIndex p e s.time == c &&
        binIndex n (phase p e s.time) == b) = [] := by
    rw [List.filter_eq_nil_iff]
    intro s hsmem hpred
    simp only [Bool.and_eq_true, beq_iff_eq] at hpred
    exact hcyc s hsmem hpred.1
  rw [h]
  rfl

theorem riverMatrix_empty_row (samples : List Sample) (p e : ℚ) (n : ℕ)
    (method : String) (r : ℕ) (hr : r < numRows samples p e)
    (hcyc : ∀ s ∈ samples, cycleIndex p e s.time ≠ minCycle samples p e + r) :
    (riverMatrix samples p e n method).getD r [] = List.replicate n none := by
  rw [riverMatrix_row samples p e n method r hr]
  have h : ∀ b : ℕ,
      cellFluxes samples p e n (minCycle samples p e + r) b = [] :=
    fun b => cellFluxes_empty_of_no_cycle samples p e n _ b hcyc
  calc (List.range n).map (fun b =>
        if (cellFluxes samples p e n (minCycle samples p e + r) b).isEmpty then none
        else some (aggValue method samples
          (cellFluxes samples p e n (minCycle samples p e + r) b)))
      = (List.range n).map (fun _ => (none : Option ℝ)) := by
        apply List.map_congr_left
        intro b _
        rw [h b]
        rfl
    _ = List.replicate n none := by
        rw [List.map_const', List.length_range]

/-- C2: on valid input, every input sample maps to exactly one (cycle,
phase-bin) cell and the cell sizes over the whole grid sum to the number of
samples; the phase bins partition [0,1) into `binCount` equal-width,
non-overlapping intervals; and the matrix rows cover the cycle indices
contiguously from the first to the last cycle containing data, with cycles
containing no data present as all-missing rows. -/
theorem river_invariants (samples : List Sample) (period epoch : ℚ)
    (binCount : ℕ) (method : String)
    (hs : samples ≠ []) (hp : 0 < period) (hn : 0 < binCount) :
    (∀ s ∈ samples, cellsContaining samples period epoch binCount s = 1)
    ∧ totalCellCount samples period epoch binCount = samples.length
    ∧ (∀ ph : ℚ, 0 ≤ ph → ph < 1 → ∀ b : ℕ,
        binIndex binCount ph = b ↔
          (b : ℚ) / binCount ≤ ph ∧ ph < ((b : ℚ) + 1) / binCount)
    ∧ (riverMatrix samples period epoch binCount method).length =
        numRows samples period epoch
    ∧ (∃ s ∈ samples, cycleIndex period epoch s.time = minCycle samples period epoch)
    ∧ (∃ s ∈ samples, cycleIndex period epoch s.time = maxCycle samples period epoch)
    ∧ (∀ s ∈ samples, minCycle samples period epoch ≤ cycleIndex period epoch s.time
        ∧ cycleIndex period epoch s.time ≤ maxCycle samples period epoch)
    ∧ (∀ r : ℕ, r < numRows samples period epoch →
        (∀ s ∈ samples,
          cycleIndex period epoch s.time ≠ minCycle samples period epoch + r) →
          (riverMatrix samples period epoch binCount method).getD r [] =
            List.replicate binCount none) :=
  ⟨fun s hs2 => cellsContaining_eq_one samples period epoch binCount hn s hs2,
    coversOnce samples period epoch binCount hn,
    fun ph h0 h1 b => binIndex_eq_iff binCount hn ph h0 h1 b,
    riverMatrix_length samples period epoch binCount method,
    minCycle_attained samples period epoch hs,
    maxCycle_attained samples period epoch hs,
    fun s hs2 => ⟨minCycle_le samples period epoch s hs2,
      le_maxCycle samples period epoch s hs2⟩,
    fun r hr hcyc => riverMatrix_empty_row samples period epoch binCount method r hr hcyc⟩

/-- Witness for C2 on the one-sample input with period 10, epoch 0, 10 bins. -/
theorem river_invariants_witness :
    demoOne ≠ [] ∧ (0 : ℚ) < 10 ∧ 0 < 10 ∧
      ((∀ s ∈ demoOne, cellsContaining demoOne 10 0 10 s = 1)
      ∧ totalCellCount demoOne 10 0 10 = demoOne.length
      ∧ (∀ ph : ℚ, 0 ≤ ph → ph < 1 → ∀ b : ℕ,
          binIndex 10 ph = b ↔
            (b : ℚ) / 10 ≤ ph ∧ ph < ((b : ℚ) + 1) / 10)
      ∧ (riverMatrix demoOne 10 0 10 "mean").length = numRows demoOne 10 0
      ∧ (∃ s ∈ demoOne, cycleIndex 10 0 s.time = minCycle demoOne 10 0)
      ∧ (∃ s ∈ demoOne, cycleIndex 10 0 s.time = maxCycle demoOne 10 0)
      ∧ (∀ s ∈ demoOne, minCycle demoOne 10 0 ≤ cycleIndex 10 0 s.time
          ∧ cycleIndex 10 0 s.time ≤ maxCycle demoOne 10 0)
      ∧ (∀ r : ℕ, r < numRows demoOne 10 0 →
          (∀ s ∈ demoOne, cycleIndex 10 0 s.time ≠ minCycle demoOne 10 0 + r) →
            (riverMatrix demoOne 10 0 10 "mean").getD r [] =
              List.replicate 10 none)) :=
  ⟨by simp [demoOne], by norm_num, by decide,
    river_invariants demoOne 10 0 10 "mean" (by simp [demoOne]) (by norm_num) (by decide)⟩

/-- C6: under sigma aggregation, every (cycle, phase-bin) cell of the river
matrix with contributing samples equals
`(cell mean - global mean) / global standard deviation`, where the global mean
and standard deviation are computed once over all finite, non-flagged flux
values of the whole input. -/
theorem sigma_cells (samples : List Sample) (p e : ℚ) (n : ℕ) (r b : ℕ)
    (hr : r < numRows samples p e) (hb : b < n)
    (hcell : cellFluxes samples p e n (minCycle samples p e + r) b ≠ []) :
    ((riverMatrix samples p e n "sigma").getD r []).getD b none =
      some (((mean (cellFluxes samples p e n (minCycle samples p e + r) b) : ℝ) -
          (mean (finiteFluxes samples) : ℝ)) /
        Real.sqrt (mean ((finiteFluxes samples).map
          (fun x => (x - mean (finiteFluxes samples)) ^ 2)))) := by
  rw [riverMatrix_row samples p e n "sigma" r hr]
  rw [List.getD_eq_getElem?_getD, List.getElem?_map, List.getElem?_range hb]
  simp only [Option.map_some', Option.getD_some]
  rw [if_neg (by simpa using hcell)]
  unfold aggValue globalStd globalMean globalVariance
  rw [if_neg (by decide), if_neg (by decide)]
  unfold globalMean
  rfl

/-- Witness for C6 on the one-sample input. -/
theorem sigma_cells_witness :
    0 < numRows demoOne 10 0 ∧ 0 < 10 ∧
      cellFluxes demoOne 10 0 10 (minCycle demoOne 10 0 + 0) 0 ≠ [] ∧
      ((riverMatrix demoOne 10 0 10 "sigma").getD 0 []).getD 0 none =
        some (((mean (cellFluxes demoOne 10 0 10 (minCycle demoOne 10 0 + 0) 0) : ℝ) -
            (mean (finiteFluxes demoOne) : ℝ)) /
          Real.sqrt (mean ((finiteFluxes demoOne).map
            (fun x => (x - mean (finiteFluxes demoOne)) ^ 2)))) :=
  have h1 : minCycle demoOne 10 0 = 0 := by
    norm_num [minCycle, cycleIndices, cycleIndex, demoOne]
  have h2 : 0 < numRows demoOne 10 0 := by
    norm_num [numRows, maxCycle, minCycle, cycleIndices, cycleIndex, demoOne]
  have h3 : cellFluxes demoOne 10 0 10 (minCycle demoOne 10 0 + 0) 0 ≠ [] := by
    rw [h1]
    norm_num [cellFluxes, cycleIndex, binIndex, phase, qmod, demoOne]
  ⟨h2, by decide, h3, sigma_cells demoOne 10 0 10 0 0 h2 (by decide) h3⟩

/-- Samples at times 0, 1, ..., 24 with flux equal to the time: the spec's
example scenario. -/
def riverDemo : List Sample := (List.range 25).map (fun t : ℕ => ⟨(t : ℚ), (t : ℚ), true⟩)

theorem demo_floor (t : ℕ) : ⌊(t : ℚ) / 10⌋ = ((t / 10 : ℕ) : ℤ) := by
  have h10 : ((10 : ℚ)) = ((10 : ℕ) : ℚ) := by norm_num
  rw [h10, Rat.floor_natCast_div_natCast]
  exact_mod_cast (by omega : (t : ℤ) / (10 : ℕ) = ((t / 10 : ℕ) : ℤ))

theorem demo_cycle (t : ℕ) : cycleIndex 10 0 (t : ℚ) = ((t / 10 : ℕ) : ℤ) := by
  unfold cycleIndex
  rw [sub_zero]
  exact demo_floor t

theorem demo_phase (t : ℕ) : phase 10 0 (t : ℚ) = ((t % 10 : ℕ) : ℚ) / 10 := by
  unfold phase qmod
  rw [sub_zero, demo_floor t]
  have key : (t : ℚ) = 10 * (((t / 10 : ℕ) : ℤ) : ℚ) + ((t % 10 : ℕ) : ℚ) := by
    norm_cast
    exact_mod_cast (by omega : t = 10 * (t / 10) + t % 10)
  rw [key]
  ring

theorem demo_bin (t : ℕ) : binIndex 10 (phase 10 0 (t : ℚ)) = t % 10 := by
  rw [demo_phase t]
  unfold binIndex
  have h1 : ((t % 10 : ℕ) : ℚ) / 10 * ((10 : ℕ) : ℚ) = ((t % 10 : ℕ) : ℚ) := by
    push_cast
    field_simp
  rw [h1, Int.floor_natCast]
  rw [Int.toNat_natCast]
  omega

theorem riverDemo_cell (c : ℤ) (b : ℕ) :
    cellFluxes riverDemo 10 0 10 c b =
      ((List.range 25).filter (fun t =>
        ((t / 10 : ℕ) : ℤ) == c && t % 10 == b)).map (fun t : ℕ => (t : ℚ)) := by
  unfold cellFluxes riverDemo
  rw [List.filter_map, List.map_map]
  congr 1
  apply List.filter_congr
  intro t _
  show (cycleIndex 10 0 (t : ℚ) == c && binIndex 10 (phase 10 0 (t : ℚ)) == b) = _
  rw [demo_cycle t, demo_bin t]

theorem riverDemo_cycles :
    cycleIndices riverDemo 10 0 = (List.range 25).map (fun t : ℕ => ((t / 10 : ℕ) : ℤ)) := by
  unfold cycleIndices riverDemo
  rw [List.map_map]
  apply List.map_congr_left
  intro t _
  show cycleIndex 10 0 (t : ℚ) = _
  exact demo_cycle t

set_option maxHeartbeats 1000000 in
set_option maxRecDepth 40000 in
/-- C3: for period 10, epoch 0, samples at times 0, ..., 24 with flux equal to
the time, bin_count 10 and per-cell reduction (bin_points 1), the computation
succeeds; the first cycle is 0 and the matrix has 3 rows; the rows for cycles
0, 1, 2 hold 10, 10 and 5 samples across the 10 phase bins; the sample at time
t falls in cycle t / 10 and phase bin t mod 10, so each row fills its bins in
ascending time order; and the mean-aggregated cell at row 0, phase bin 0
equals 0. -/
theorem river_example :
    checkRiver riverDemo 10 "mean" = none ∧
    minCycle riverDemo 10 0 = 0 ∧
    numRows riverDemo 10 0 = 3 ∧
    ((List.range 10).map (fun b => (cellFluxes riverDemo 10 0 10 0 b).length)).sum = 10 ∧
    ((List.range 10).map (fun b => (cellFluxes riverDemo 10 0 10 1 b).length)).sum = 10 ∧
    ((List.range 10).map (fun b => (cellFluxes riverDemo 10 0 10 2 b).length)).sum = 5 ∧
    (∀ t ∈ List.range 25, cycleIndex 10 0 (t : ℚ) = ((t / 10 : ℕ) : ℤ) ∧
      binIndex 10 (phase 10 0 (t : ℚ)) = t % 10) ∧
    mean (cellFluxes riverDemo 10 0 10 0 0) = 0 ∧
    ((riverMatrix riverDemo 10 0 10 "mean").getD 0 []).getD 0 none = some 0 := by
  have hne1 : riverDemo ≠ [] := by simp [riverDemo]
  have hpar : ¬((10 : ℚ) ≤ 0 ∨ validAggregation "mean" = false) := by
    rintro (h | h)
    · norm_num at h
    · exact absurd h (by decide)
  have hfin : ¬∀ s ∈ riverDemo, s.finite = false := by
    intro hall
    have hmem : (fun t : ℕ => (⟨(t : ℚ), (t : ℚ), true⟩ : Sample)) 0 ∈ riverDemo := by
      unfold riverDemo
      exact List.mem_map_of_mem _ (List.mem_range.mpr (by norm_num))
    simpa using hall _ hmem
  have hcheck : checkRiver riverDemo 10 "mean" = none := by
    rw [checkRiver_eq, if_neg hne1, if_neg hpar, if_neg hfin]
  have hmin : minCycle riverDemo 10 0 = 0 := by
    unfold minCycle
    rw [riverDemo_cycles]
    decide
  have hmax : maxCycle riverDemo 10 0 = 2 := by
    unfold maxCycle
    rw [riverDemo_cycles]
    decide
  have hnum : numRows riverDemo 10 0 = 3 := by
    unfold numRows
    rw [hmin, hmax]
    decide
  have hc : cellFluxes riverDemo 10 0 10 0 0 = [(0 : ℚ)] := by
    rw [riverDemo_cell]
    have hf : (List.range 25).filter
        (fun t => ((t / 10 : ℕ) : ℤ) == (0 : ℤ) && t % 10 == 0) = [0] := by decide
    rw [hf]
    simp
  have h2 : 0 < numRows riverDemo 10 0 := by
    rw [hnum]
    decide
  refine ⟨hcheck, hmin, hnum, ?_, ?_, ?_, fun t _ => ⟨demo_cycle t, demo_bin t⟩, ?_, ?_⟩
  · simp only [riverDemo_cell, List.length_map]
    decide
  · simp only [riverDemo_cell, List.length_map]
    decide
  · simp only [riverDemo_cell, List.length_map]
    decide
  · rw [hc]
    simp [mean]
  · rw [riverMatrix_row riverDemo 10 0 10 "mean" 0 h2]
    rw [List.getD_eq_getElem?_getD, List.getElem?_map,
      List.getElem?_range (by decide : (0 : ℕ) < 10)]
    simp only [Option.map_some', Option.getD_some]
    have hcc : cellFluxes riverDemo 10 0 10 (minCycle riverDemo 10 0 + ((0 : ℕ) : ℤ)) 0 =
        [(0 : ℚ)] := by
      rw [hmin]
      simpa using hc
    rw [hcc]
    rw [if_neg (by decide)]
    unfold aggValue
    rw [if_pos (by decide)]
    norm_num [mean]
